import Mathlib

/-!
Shallow embedding of the MorphoDynamics repository (files
`FunctionalDefinition.py` and `Analysis.py`) and proofs about it.

Numeric values (numpy float entries) are modelled as rationals `ℚ`;
external library calls that are irrational on floats (`math.sqrt`,
`np.linalg.norm`) are modelled as abstract data (a stored scalar,
an abstract norm function), since no claim depends on their values.
-/

namespace MorphoDyn

/-! ### FunctionalDefinition.py -/

/-- Adjacent differences of a list: for `l = [l0, l1, ..., l(m-1)]` this is
`[l1 - l0, ..., l(m-1) - l(m-2)]`.  Used to embed the loop
`for i in range(1, n): r[i] = o[i] - o[i-1]` of `Functional.transform`. -/
def diffs : List ℚ → List ℚ
  | a :: b :: rest => (b - a) :: diffs (b :: rest)
  | _ => []

/-- `Functional.transform(o)` from `FunctionalDefinition.py`:
`n = len(o)`; `r` has length `n+1` with `r[0] = o[0]`,
`r[i] = o[i] - o[i-1]` for `i = 1..n-1`, and `r[n] = o[0] - o[n-1]`.
The Python code indexes `o[0]`, so it raises on an empty input;
we return `[]` there and guard theorems with nonemptiness. -/
def transform (o : List ℚ) : List ℚ :=
  match o with
  | [] => []
  | a :: rest => a :: (diffs (a :: rest) ++ [a - (a :: rest).getLastD 0])

/-- The running cumulative sums of `Functional.inversetransform`:
`invAux prev l` produces `o[i] = l[i] + o[i-1]` starting from `prev`,
embedding the loop `for i in range(1, n): o[i] = r[i] + o[i-1]`. -/
def invAux (prev : ℚ) : List ℚ → List ℚ
  | [] => []
  | x :: xs => (x + prev) :: invAux (x + prev) xs

/-- `Functional.inversetransform(r)` from `FunctionalDefinition.py`:
`n = len(r) - 1`; `o` has length `n` with `o[0] = r[0]` and
`o[i] = r[i] + o[i-1]` for `i = 1..n-1`.  The loop consumes `r[1..n-1]`,
i.e. everything after the head except the very last entry of `r`.
The Python code indexes `o[0]` into a length-`n` array, so it raises for
`len(r) <= 1`; we return `[]` / `[x]` there and guard theorems. -/
def inversetransform (r : List ℚ) : List ℚ :=
  match r with
  | [] => []
  | x :: xs => x :: invAux x xs.dropLast

/-- `np.mod(x, 1)`: the fractional part `x - ⌊x⌋`, as numpy computes it
(also for negative `x`). -/
def mod1 (x : ℚ) : ℚ := x - ⌊x⌋

/-- The `Functional` class of `FunctionalDefinition.py`.  The spline tuples
`tck1`, `tck2` are consumed only through `scipy.interpolate.splev`, so they
are modelled as the evaluation maps parameter ↦ (x, y) that `splev` produces.
The field `sqrtw` models the scalar `math.sqrt(self.w)` (an external float
square root); the code only ever uses `w` through this square root. -/
structure Functional where
  tck1 : ℚ → ℚ × ℚ
  tck2 : ℚ → ℚ × ℚ
  p : List ℚ
  sqrtw : ℚ

/-- `Functional.f(r)` from `FunctionalDefinition.py`:
`o = inversetransform(r)`, `n = len(o)`, `f = np.zeros((3*n,))`;
`f[0:2*n] = concatenate(splev(mod(o,1), tck2)) - concatenate(splev(mod(p,1), tck1))`
(the concatenation lists all `x` coordinates, then all `y` coordinates);
`f[i+2*n-1] = sqrt(w) * (o[i]-o[i-1]) / (p[i]-p[i-1])` for `i = 1..n-1`;
`f[3*n-1] = sqrt(w) * (1+o[0]-o[n-1]) / (1+p[0]-p[n-1])`. -/
def Functional.f (F : Functional) (r : List ℚ) : List ℚ :=
  let o := inversetransform r
  let n := o.length
  let sx := o.map fun t => (F.tck2 (mod1 t)).1
  let sy := o.map fun t => (F.tck2 (mod1 t)).2
  let s0x := F.p.map fun t => (F.tck1 (mod1 t)).1
  let s0y := F.p.map fun t => (F.tck1 (mod1 t)).2
  let geo := List.zipWith (· - ·) (sx ++ sy) (s0x ++ s0y)
  let reg := (List.range (n - 1)).map fun j =>
    F.sqrtw * (o.getD (j + 1) 0 - o.getD j 0) / (F.p.getD (j + 1) 0 - F.p.getD j 0)
  let wrap := F.sqrtw * (1 + o.getD 0 0 - o.getD (n - 1) 0) /
    (1 + F.p.getD 0 0 - F.p.getD (n - 1) 0)
  geo ++ reg ++ [wrap]

/-- The denominators of the divisions performed by `Functional.f(r)`:
`p[i] - p[i-1]` for `i = 1..n-1` and `1 + p[0] - p[n-1]`,
where `n = len(inversetransform(r))`. -/
def Functional.divisors (F : Functional) (r : List ℚ) : List ℚ :=
  let n := (inversetransform r).length
  ((List.range (n - 1)).map fun j => F.p.getD (j + 1) 0 - F.p.getD j 0) ++
    [1 + F.p.getD 0 0 - F.p.getD (n - 1) 0]

/-! ### Basic lemmas about the transform pair -/

theorem diffs_length (l : List ℚ) : (diffs l).length = l.length - 1 := by
  induction l with
  | nil => simp [diffs]
  | cons a rest ih =>
    cases rest with
    | nil => simp [diffs]
    | cons b rs => simpa [diffs] using ih

theorem invAux_length (prev : ℚ) (l : List ℚ) : (invAux prev l).length = l.length := by
  induction l generalizing prev with
  | nil => simp [invAux]
  | cons x xs ih => simp [invAux, ih]

theorem transform_length (o : List ℚ) (h : o ≠ []) :
    (transform o).length = o.length + 1 := by
  match o with
  | a :: rest => simp [transform, diffs_length]

theorem inversetransform_length (r : List ℚ) (h : 2 ≤ r.length) :
    (inversetransform r).length = r.length - 1 := by
  match r with
  | x :: y :: xs => simp [inversetransform, invAux_length]

/-- Cumulative summing undoes adjacent differences: the core of the
round-trip `inversetransform ∘ transform = id`. -/
theorem invAux_diffs (a : ℚ) (rest : List ℚ) :
    invAux a (diffs (a :: rest)) = rest := by
  induction rest generalizing a with
  | nil => simp [diffs, invAux]
  | cons b rs ih => simp [diffs, invAux, ih]

/-- Adjacent differences undo cumulative summing. -/
theorem diffs_invAux (a : ℚ) (l : List ℚ) :
    diffs (a :: invAux a l) = l := by
  induction l generalizing a with
  | nil => simp [invAux, diffs]
  | cons x xs ih => simp [invAux, diffs, ih]

theorem diffs_getD (l : List ℚ) (i : ℕ) (h : i + 1 < l.length) :
    (diffs l).getD i 0 = l.getD (i + 1) 0 - l.getD i 0 := by
  induction l generalizing i with
  | nil => simp at h
  | cons a rest ih =>
    cases rest with
    | nil => simp at h
    | cons b rs =>
      cases i with
      | zero => simp [diffs]
      | succ j =>
        have hj : j + 1 < (b :: rs).length := by
          simpa using Nat.lt_of_succ_lt_succ h
        simpa [diffs] using ih j hj

theorem getLastD_eq_getD (l : List ℚ) (h : l ≠ []) :
    l.getLastD 0 = l.getD (l.length - 1) 0 := by
  induction l with
  | nil => simp at h
  | cons a rest ih =>
    cases rest with
    | nil => simp
    | cons b rs => simpa using ih (by simp)

theorem dropLast_append_getD (l : List ℚ) (h : l ≠ []) :
    l.dropLast ++ [l.getD (l.length - 1) 0] = l := by
  induction l with
  | nil => simp at h
  | cons a rest ih =>
    cases rest with
    | nil => simp
    | cons b rs => simpa using ih (by simp)

theorem invAux_getLastD (prev : ℚ) (l : List ℚ) :
    (prev :: invAux prev l).getLastD 0 = prev + l.sum := by
  induction l generalizing prev with
  | nil => simp [invAux]
  | cons y ys ih =>
    have := ih (y + prev)
    simp only [invAux, List.getLastD_cons] at this ⊢
    rw [this, List.sum_cons]; ring

theorem inversetransform_transform (o : List ℚ) (h : o ≠ []) :
    inversetransform (transform o) = o := by
  match o with
  | a :: rest =>
    simp [transform, inversetransform, List.dropLast_concat, invAux_diffs]

/-- The composite the other way: on a residual vector `r` of length `n+1`,
`transform (inversetransform r)` keeps `r[0..n-1]` and replaces the last
entry by `-(r[1] + ... + r[n-1])`. -/
theorem transform_inversetransform (r : List ℚ) (h : 2 ≤ r.length) :
    transform (inversetransform r) = r.dropLast ++ [-(r.dropLast.drop 1).sum] := by
  match r with
  | x :: y :: xs =>
    have hxs : (y :: xs).dropLast.length = xs.length := by simp
    show transform (x :: invAux x (y :: xs).dropLast) = _
    simp only [transform, diffs_invAux, invAux_getLastD]
    have : x - (x + ((y :: xs).dropLast).sum) = -((y :: xs).dropLast).sum := by ring
    rw [this]
    simp

/-- C1: for every raw parameter array `o` with `len(o) = n >= 1`,
`Functional.transform` maps `o` to the `(n+1)`-vector `r` with
`r[0] = o[0]`, `r[i] = o[i] - o[i-1]` for `i = 1..n-1`, and
`r[n] = o[0] - o[n-1]`, and `Functional.inversetransform` recovers `o`
by cumulative summing, so `inversetransform` is a left inverse of
`transform`: `inversetransform (transform o) = o`. -/
theorem C1_inversetransform_left_inverse (o : List ℚ) (h : 1 ≤ o.length) :
    (transform o).length = o.length + 1 ∧
    (transform o).getD 0 0 = o.getD 0 0 ∧
    (∀ i, 1 ≤ i → i < o.length →
      (transform o).getD i 0 = o.getD i 0 - o.getD (i - 1) 0) ∧
    (transform o).getD o.length 0 = o.getD 0 0 - o.getD (o.length - 1) 0 ∧
    inversetransform (transform o) = o := by
  match o with
  | a :: rest =>
    have hne : (a :: rest) ≠ [] := by simp
    have hdl : (diffs (a :: rest)).length = rest.length := by
      simp [diffs_length]
    refine ⟨transform_length _ hne, by simp [transform], ?_, ?_,
      inversetransform_transform _ hne⟩
    · intro i h1 h2
      match i, h1 with
      | j + 1, _ =>
        have hj : j < (diffs (a :: rest)).length := by
          rw [hdl]; simpa using Nat.lt_of_succ_lt_succ h2
        calc (transform (a :: rest)).getD (j + 1) 0
            = (diffs (a :: rest) ++ [a - (a :: rest).getLastD 0]).getD j 0 := by
              simp [transform]
          _ = (diffs (a :: rest)).getD j 0 := List.getD_append _ _ _ _ hj
          _ = (a :: rest).getD (j + 1) 0 - (a :: rest).getD j 0 :=
              diffs_getD _ j (by simpa using h2)
          _ = (a :: rest).getD (j + 1) 0 - (a :: rest).getD (j + 1 - 1) 0 := by simp
    · calc (transform (a :: rest)).getD (a :: rest).length 0
          = (diffs (a :: rest) ++ [a - (a :: rest).getLastD 0]).getD rest.length 0 := by
            simp [transform]
        _ = [a - (a :: rest).getLastD 0].getD (rest.length - (diffs (a :: rest)).length) 0 :=
            List.getD_append_right _ _ _ _ (by rw [hdl])
        _ = a - (a :: rest).getLastD 0 := by rw [hdl]; simp
        _ = (a :: rest).getD 0 0 - (a :: rest).getD ((a :: rest).length - 1) 0 := by
            rw [getLastD_eq_getD _ hne]; simp

/-- Witness for C1 at the concrete input `o = [1, 5, 2]`. -/
theorem C1_inversetransform_left_inverse_witness :
    1 ≤ ([1, 5, 2] : List ℚ).length ∧
    inversetransform (transform [1, 5, 2]) = [1, 5, 2] :=
  ⟨by decide, (C1_inversetransform_left_inverse [1, 5, 2] (by decide)).2.2.2.2⟩

/-- C10: `Functional.inversetransform` ignores the last component of its
input: two residual vectors of equal length that agree on all components
except possibly the last decode to the same parameter array; consequently
`transform (inversetransform r) = r` holds exactly when the last component
`r[n]` equals `-(r[1] + ... + r[n-1])`, so the encode/decode pair is a
bijection only onto that constraint subspace. -/
theorem C10_inversetransform_ignores_last (r r' : List ℚ) (h1 : 2 ≤ r.length)
    (h2 : r'.length = r.length)
    (h3 : ∀ i, i < r.length - 1 → r.getD i 0 = r'.getD i 0) :
    inversetransform r = inversetransform r' ∧
    (transform (inversetransform r) = r ↔
      r.getD (r.length - 1) 0 = -(r.dropLast.drop 1).sum) := by
  have hne : r ≠ [] := by
    cases r with
    | nil => simp at h1
    | cons a l => simp
  constructor
  · match r, r' with
    | x :: xs, x' :: xs' =>
      have hx : x = x' := by
        have h0 := h3 0 (by simp at h1 ⊢; omega)
        simpa using h0
      have hxslen : xs.length = xs'.length := by
        simp at h2; omega
      have hdl : xs.dropLast = xs'.dropLast := by
        apply List.ext_getElem (by simp [hxslen])
        intro n hn1 hn2
        rw [List.getElem_dropLast, List.getElem_dropLast]
        have hb : n < xs.length := by
          have := hn1; simp at this; omega
        have hb' : n < xs'.length := by omega
        have h4 := h3 (n + 1) (by simp; have := hn1; simp at this; omega)
        rw [List.getD_cons_succ, List.getD_cons_succ,
          List.getD_eq_getElem _ _ hb, List.getD_eq_getElem _ _ hb'] at h4
        exact h4
      show x :: invAux x xs.dropLast = x' :: invAux x' xs'.dropLast
      rw [hx, hdl]
  · rw [transform_inversetransform r h1]
    constructor
    · intro he
      have h5 := he.trans (dropLast_append_getD r hne).symm
      have h6 := List.append_cancel_left h5
      simp only [List.cons.injEq, and_true] at h6
      exact h6.symm
    · intro he
      rw [← he]
      exact dropLast_append_getD r hne

/-- Witness for C10 at `r = [1, 2, 3]`, `r' = [1, 2, 7]` (agreeing except in
the last slot). -/
theorem C10_inversetransform_ignores_last_witness :
    (2 ≤ ([1, 2, 3] : List ℚ).length ∧
      ([1, 2, 7] : List ℚ).length = ([1, 2, 3] : List ℚ).length) ∧
    inversetransform [1, 2, 3] = inversetransform [1, 2, 7] :=
  ⟨⟨by decide, by decide⟩,
    (C10_inversetransform_ignores_last [1, 2, 3] [1, 2, 7] (by decide) (by decide)
      (by decide)).1⟩

/-- Concrete `Functional` used for evaluating the cost vector on an input:
identity-like curve evaluators, two start parameters, unit weight. -/
def F2 : Functional := ⟨fun t => (t, t), fun t => (t, t), [0, 1/2], 1⟩

/-- Concrete residual vector of length 3, decoding to 2 raw parameters. -/
def r2 : List ℚ := [0, 1/2, 0]

/-- C2, counterexample: with `n = 2` start parameters, the cost vector of
`Functional.f` has `3 * 2 = 6` entries, not `2*n + n + 1 = 7` as claimed:
the regularization loop `for i in range(1, n)` contributes only `n - 1`
residuals. -/
theorem C2_cost_vector_counterexample : ¬ (F2.f r2).length = 2 * 2 + 2 + 1 := by
  decide

/-- C2 as amended: for a `Functional` with `n >= 1` start parameters and a
residual vector decoding to `n` raw parameters `o`, the cost vector
`Functional.f` concatenates (a) `2n` geometric residuals — coordinate
differences between curve `S` (from `tck2`) at `o mod 1` and curve `S0`
(from `tck1`) at `p mod 1`, all `x` coordinates first, then all `y`
coordinates — (b) `n - 1` regularization residuals (for `i = 1..n-1`) each
weighted by `sqrt(w)` penalizing the ratio of local spacing of `o` to local
spacing of `p`, and (c) one final residual enforcing consistency of the
periodic wrap segment, so the cost vector has `2n + (n-1) + 1 = 3n`
entries. -/
theorem C2_cost_vector_structure (F : Functional) (r : List ℚ) (n : ℕ)
    (hn : (inversetransform r).length = n) (hp : F.p.length = n) (h1 : 1 ≤ n) :
    (F.f r).length = 3 * n ∧
    (∀ i, i < n → (F.f r).getD i 0 =
      (F.tck2 (mod1 ((inversetransform r).getD i 0))).1 -
        (F.tck1 (mod1 (F.p.getD i 0))).1) ∧
    (∀ i, i < n → (F.f r).getD (n + i) 0 =
      (F.tck2 (mod1 ((inversetransform r).getD i 0))).2 -
        (F.tck1 (mod1 (F.p.getD i 0))).2) ∧
    (∀ i, 1 ≤ i → i < n → (F.f r).getD (2 * n + i - 1) 0 =
      F.sqrtw * ((inversetransform r).getD i 0 - (inversetransform r).getD (i - 1) 0) /
        (F.p.getD i 0 - F.p.getD (i - 1) 0)) ∧
    (F.f r).getD (3 * n - 1) 0 =
      F.sqrtw * (1 + (inversetransform r).getD 0 0 - (inversetransform r).getD (n - 1) 0) /
        (1 + F.p.getD 0 0 - F.p.getD (n - 1) 0) := by
  set o := inversetransform r with ho
  set sx := o.map (fun t => (F.tck2 (mod1 t)).1) with hsx
  set sy := o.map (fun t => (F.tck2 (mod1 t)).2) with hsy
  set s0x := F.p.map (fun t => (F.tck1 (mod1 t)).1) with hs0x
  set s0y := F.p.map (fun t => (F.tck1 (mod1 t)).2) with hs0y
  set geo := List.zipWith (· - ·) (sx ++ sy) (s0x ++ s0y) with hgeo
  set reg := (List.range (o.length - 1)).map (fun j =>
    F.sqrtw * (o.getD (j + 1) 0 - o.getD j 0) / (F.p.getD (j + 1) 0 - F.p.getD j 0))
    with hreg
  have hf : F.f r = geo ++ (reg ++ [F.sqrtw * (1 + o.getD 0 0 - o.getD (o.length - 1) 0) /
      (1 + F.p.getD 0 0 - F.p.getD (o.length - 1) 0)]) := by
    simp only [Functional.f, hgeo, hreg, ← ho, List.append_assoc]
  have hgl : geo.length = 2 * n := by
    simp [hgeo, hsx, hsy, hs0x, hs0y, hn, hp]; omega
  have hrl : reg.length = n - 1 := by simp [hreg, hn]
  refine ⟨?_, ?_, ?_, ?_, ?_⟩
  · rw [hf]; simp only [List.length_append, hgl, hrl, List.length_cons,
      List.length_nil]
    omega
  · intro i hi
    have hix : i < sx.length := by simp [hsx, hn, hi]
    have hig : i < geo.length := by omega
    rw [hf, List.getD_append _ _ _ _ hig, hgeo,
      List.getD_eq_getElem _ _ (by rwa [hgeo] at hig)]
    rw [List.getElem_zipWith]
    rw [List.getElem_append_left (by simpa using hix),
      List.getElem_append_left (by simp [hs0x, hp, hi])]
    simp [hsx, hs0x, List.getD_eq_getElem, hn, hp, hi]
  · intro i hi
    have hig : n + i < geo.length := by omega
    rw [hf, List.getD_append _ _ _ _ hig, hgeo,
      List.getD_eq_getElem _ _ (by rwa [hgeo] at hig)]
    rw [List.getElem_zipWith]
    rw [List.getElem_append_right (by simp [hsx, hn]),
      List.getElem_append_right (by simp [hs0x, hp])]
    simp [hsx, hsy, hs0x, hs0y, List.getD_eq_getElem, hn, hp, hi]
  · intro i hi1 hi2
    have hpos : geo.length ≤ 2 * n + i - 1 := by omega
    have hidx : 2 * n + i - 1 - geo.length = i - 1 := by omega
    have hir : i - 1 < reg.length := by omega
    rw [hf, List.getD_append_right _ _ _ _ hpos, hidx,
      List.getD_append _ _ _ _ hir, hreg,
      List.getD_eq_getElem _ _ (by rwa [hreg] at hir)]
    rw [List.getElem_map, List.getElem_range]
    have hi' : i - 1 + 1 = i := by omega
    rw [hi']
  · have hpos : geo.length ≤ 3 * n - 1 := by omega
    have hidx : 3 * n - 1 - geo.length = n - 1 := by omega
    have hpos2 : reg.length ≤ n - 1 := by omega
    rw [hf, List.getD_append_right _ _ _ _ hpos, hidx,
      List.getD_append_right _ _ _ _ hpos2, hrl]
    simp [hn]

/-- Witness for C2 as amended, at the concrete `Functional` `F2`
(`n = 2`) and residual vector `r2`: the cost vector has `3 * 2` entries. -/
theorem C2_cost_vector_structure_witness :
    ((inversetransform r2).length = 2 ∧ F2.p.length = 2 ∧ 1 ≤ 2) ∧
    (F2.f r2).length = 3 * 2 :=
  ⟨⟨by decide, by decide, by decide⟩,
    (C2_cost_vector_structure F2 r2 2 (by decide) (by decide) (by decide)).1⟩

/-- C9: `Functional.f` divides by `p[i] - p[i-1]` for `i = 1..n-1` and by
`1 + p[0] - p[n-1]` without any guard; whenever the start parameters `p`
are strictly increasing with `p[n-1] - p[0] < 1`, every such divisor is
non-zero, so all divisions in `Functional.f` are well-defined. -/
theorem C9_divisors_nonzero (F : Functional) (r : List ℚ)
    (hlen : F.p.length = (inversetransform r).length)
    (hmono : F.p.Pairwise (· < ·))
    (hspread : F.p.getD (F.p.length - 1) 0 - F.p.getD 0 0 < 1) :
    ∀ d ∈ F.divisors r, d ≠ 0 := by
  intro d hd
  simp only [Functional.divisors, List.mem_append, List.mem_map,
    List.mem_range, List.mem_singleton, ← hlen] at hd
  rcases hd with ⟨j, hj, rfl⟩ | rfl
  · have hj1 : j + 1 < F.p.length := by omega
    have hj0 : j < F.p.length := by omega
    have hlt : F.p.getD j 0 < F.p.getD (j + 1) 0 := by
      rw [List.getD_eq_getElem _ _ hj0, List.getD_eq_getElem _ _ hj1]
      exact List.pairwise_iff_getElem.mp hmono j (j + 1) hj0 hj1 (by omega)
    have : F.p.getD (j + 1) 0 - F.p.getD j 0 > 0 := by linarith
    exact ne_of_gt this
  · have : 1 + F.p.getD 0 0 - F.p.getD (F.p.length - 1) 0 > 0 := by linarith
    exact ne_of_gt this

/-- Concrete `Functional` for the C9 witness: three strictly increasing
start parameters spanning less than one period. -/
def F9 : Functional := ⟨fun t => (t, t), fun t => (t, t), [0, 1/4, 1/2], 1⟩

/-- Concrete residual vector of length 4, decoding to 3 raw parameters. -/
def r9 : List ℚ := [0, 0, 0, 0]

/-- Witness for C9 at `F9` and `r9`: the hypotheses hold and the first
divisor of `Functional.f`, `p[1] - p[0]`, is non-zero. -/
theorem C9_divisors_nonzero_witness :
    (F9.p.length = (inversetransform r9).length ∧ F9.p.Pairwise (· < ·) ∧
      F9.p.getD (F9.p.length - 1) 0 - F9.p.getD 0 0 < 1) ∧
    (F9.divisors r9).getD 0 0 ≠ 0 :=
  ⟨⟨by decide, by norm_num [F9], by norm_num [F9]⟩,
    C9_divisors_nonzero F9 r9 (by decide) (by norm_num [F9]) (by norm_num [F9])
      ((F9.divisors r9).getD 0 0)
      (by rw [List.getD_eq_getElem _ _ (by decide)]; exact List.getElem_mem _)⟩

/-! ### Analysis.py: the orchestrator `analyze_morphodynamics`

The loop body calls external collaborators (`segment`, `fit_spline`,
`find_origin`, `map_contours2`, `rasterize_curve`, `create_windows`,
`extract_signals`, `scipy.interpolate.splev`) that live outside the
repository core; they are modelled as opaque function parameters collected
in an environment record, and the theorems quantify over all of them.
A fitted spline curve is modelled by its two evaluation maps
(`splev(t, tck)` and `splev(t, tck, der=1)`). -/

/-- A spline curve as consumed by `Analysis.py`: `ev t` models
`splev(t, s)` (position) and `der t` models `splev(t, s, der=1)`
(first derivative). -/
structure Curve where
  ev : ℚ → ℚ × ℚ
  der : ℚ → ℚ × ℚ

/-- The inputs of one run of `analyze_morphodynamics`, with the external
collaborators as opaque functions.  `fitCurve k` models the chain
`fit_spline(segment(load_frame_morpho(k), ...), lambda_)` producing frame
`k`'s curve `s`; `createWin s q` models
`create_windows(rasterize_curve(shape, s, q), I, J)` with an opaque window
type `Win`; `extractSig m k w j i` models the `(j, i)` entry of the pair
returned by `extract_signals(load_frame_signal(m, k), w)`; `normAt` models
`np.linalg.norm` applied to one tangent vector (a float square root,
opaque over `ℚ`). -/
structure Env (Win : Type) where
  K : ℕ
  I : ℕ
  J : ℕ
  nsig : ℕ
  fitCurve : ℕ → Curve
  computeLen : Curve → ℚ
  computeArea : Curve → ℚ
  findOrigin : Curve → Curve → ℚ → ℚ
  mapContours2 : Curve → Curve → List ℚ → List ℚ → List ℚ
  createWin : Curve → ℚ → Win
  extractSig : ℕ → ℕ → Win → ℕ → ℕ → ℚ × ℚ
  normAt : ℚ × ℚ → ℚ

/-- The accumulating result record `res` of `analyze_morphodynamics`.
The numpy arrays allocated by `np.zeros` are modelled as total functions
from indices, zero outside the written region; list-valued fields model
the Python lists built by `append`. -/
structure Res where
  spline : List Curve
  param0 : List (List ℚ)
  param : List (List ℚ)
  displacement : ℕ → ℕ → ℚ
  mean : ℕ → ℕ → ℕ → ℕ → ℚ
  var : ℕ → ℕ → ℕ → ℕ → ℚ
  length : ℕ → ℚ
  area : ℕ → ℚ
  orig : ℕ → ℚ

/-- The freshly allocated result record (lines 23-32 of `Analysis.py`):
empty lists and all-zero arrays. -/
def initRes : Res :=
  ⟨[], [], [], fun _ _ => 0, fun _ _ _ _ => 0, fun _ _ _ _ => 0,
    fun _ => 0, fun _ => 0, fun _ => 0⟩

/-- Pointwise write `a[i] = v` into a 1-D array. -/
def upd1 (a : ℕ → ℚ) (i : ℕ) (v : ℚ) : ℕ → ℚ :=
  fun j => if j = i then v else a j

/-- Column write `a[:, c] = v` into an array with `I` rows: row indices
`0..I-1` of column `c` receive `v i` (numpy writes exactly the `I`
allocated rows). -/
def updCol (I : ℕ) (a : ℕ → ℕ → ℚ) (c : ℕ) (v : ℕ → ℚ) : ℕ → ℕ → ℚ :=
  fun i c' => if i < I ∧ c' = c then v i else a i c'

/-- Slice write `a[m, :, :, k] = v` into a 4-D array with `J`-by-`I` inner
slices. -/
def updS4 (J I : ℕ) (a : ℕ → ℕ → ℕ → ℕ → ℚ) (m k : ℕ) (v : ℕ → ℕ → ℚ) :
    ℕ → ℕ → ℕ → ℕ → ℚ :=
  fun m' j i k' => if m' = m ∧ j < J ∧ i < I ∧ k' = k then v j i else a m' j i k'

/-- `q + 0.5 / I + np.linspace(0, 1, I, endpoint=False)`: the `I` sampling
parameters `q + 1/(2I) + i/I`, `i = 0..I-1`. -/
def linPts (q : ℚ) (I : ℕ) : List ℚ :=
  (List.range I).map fun i => q + 1 / (2 * I) + i / I

/-- The body of the inner loop over signal channels: channel `m`'s
statistics are written into the `(m, k)` slices of `mean` and `var`. -/
def sigStep {Win : Type} (env : Env Win) (k : ℕ) (w : Win) (r : Res) (m : ℕ) : Res :=
  { r with
    mean := updS4 env.J env.I r.mean m k fun j i => (env.extractSig m k w j i).1
    var := updS4 env.J env.I r.var m k fun j i => (env.extractSig m k w j i).2 }

/-- The inner loop `for m in range(len(data.signalfile))` filling
`res.mean[m, :, :, k]` and `res.var[m, :, :, k]` from
`extract_signals(load_frame_signal(m, k), w)`. -/
def signalLoop {Win : Type} (env : Env Win) (k : ℕ) (w : Win) (res : Res) : Res :=
  (List.range env.nsig).foldl (sigStep env k w) res

/-- The displacement entry for angular bin `i` (lines 74-77 of
`Analysis.py`): `u = splev(mod(t0, 1), s0, der=1)` is the tangent,
`u := [u[1], -u[0]] / norm(u)` the rotated unit vector, and the entry is
the scalar product of `splev(mod(t, 1), s) - splev(mod(t0, 1), s0)` with
it, evaluated at the `i`-th parameter pair. -/
def dispTerm (nrm : ℚ × ℚ → ℚ) (s0 s : Curve) (t0 t : List ℚ) (i : ℕ) : ℚ :=
  let u := s0.der (mod1 (t0.getD i 0))
  ((s.ev (mod1 (t.getD i 0))).1 - (s0.ev (mod1 (t0.getD i 0))).1) * (u.2 / nrm u) +
    ((s.ev (mod1 (t.getD i 0))).2 - (s0.ev (mod1 (t0.getD i 0))).2) * (-u.1 / nrm u)

/-- One iteration of the main loop of `analyze_morphodynamics` at frame
`k` (artifact generation under `param.showWindows` is plotting-only and
out of scope).  The variable `s0` carried between iterations always equals
the previous frame's fitted curve `env.fitCurve (k-1)`, which is how it is
written here. -/
def stepFrame {Win : Type} (env : Env Win) (k : ℕ) (res : Res) : Res :=
  let s := env.fitCurve k
  let res1 := { res with
    length := upd1 res.length k (env.computeLen s)
    area := upd1 res.area k (env.computeArea s) }
  if k = 0 then
    let w := env.createWin s (res1.orig 0)
    let res2 := signalLoop env 0 w res1
    { res2 with spline := res2.spline ++ [s] }
  else
    let s0 := env.fitCurve (k - 1)
    let res2 := { res1 with orig := upd1 res1.orig k (env.findOrigin s0 s (res1.orig (k - 1))) }
    let t0 := linPts (res2.orig (k - 1)) env.I
    let t := env.mapContours2 s0 s t0 (linPts (res2.orig k) env.I)
    let w := env.createWin s (res2.orig k)
    let res3 := signalLoop env k w res2
    let res4 := { res3 with
      displacement := updCol env.I res3.displacement (k - 1)
        (dispTerm env.normAt s0 s t0 t) }
    { res4 with
      spline := res4.spline ++ [s]
      param0 := res4.param0 ++ [t0]
      param := res4.param ++ [t] }

/-- The state after processing frames `0..n-1`: the main loop
`for k in range(0, data.K)` unrolled to its first `n` iterations. -/
def analyzeUpTo {Win : Type} (env : Env Win) : ℕ → Res
  | 0 => initRes
  | n + 1 => stepFrame env n (analyzeUpTo env n)

/-- `analyze_morphodynamics(data, param)`: run the loop over all
`K = data.K` frames and return the result record. -/
def analyze {Win : Type} (env : Env Win) : Res :=
  analyzeUpTo env env.K

/-! ### Write-locality of the loop body -/

theorem foldl_sigStep_others {Win : Type} (env : Env Win) (k : ℕ) (w : Win)
    (l : List ℕ) (res : Res) :
    (l.foldl (sigStep env k w) res).spline = res.spline ∧
    (l.foldl (sigStep env k w) res).param0 = res.param0 ∧
    (l.foldl (sigStep env k w) res).param = res.param ∧
    (l.foldl (sigStep env k w) res).displacement = res.displacement ∧
    (l.foldl (sigStep env k w) res).length = res.length ∧
    (l.foldl (sigStep env k w) res).area = res.area ∧
    (l.foldl (sigStep env k w) res).orig = res.orig := by
  induction l generalizing res with
  | nil => exact ⟨rfl, rfl, rfl, rfl, rfl, rfl, rfl⟩
  | cons a ms ih =>
    rw [List.foldl_cons]
    exact ih _

theorem foldl_sigStep_skip {Win : Type} (env : Env Win) (k : ℕ) (w : Win)
    (l : List ℕ) (res : Res) (m j i k' : ℕ)
    (h : (∀ m' ∈ l, m ≠ m') ∨ env.J ≤ j ∨ env.I ≤ i ∨ k' ≠ k) :
    (l.foldl (sigStep env k w) res).mean m j i k' = res.mean m j i k' ∧
    (l.foldl (sigStep env k w) res).var m j i k' = res.var m j i k' := by
  induction l generalizing res with
  | nil => exact ⟨rfl, rfl⟩
  | cons a ms ih =>
    rw [List.foldl_cons]
    have h2 : (∀ m' ∈ ms, m ≠ m') ∨ env.J ≤ j ∨ env.I ≤ i ∨ k' ≠ k := by
      rcases h with h | h
      · exact Or.inl fun m' hm' => h m' (List.mem_cons_of_mem _ hm')
      · exact Or.inr h
    have hcond : ¬ (m = a ∧ j < env.J ∧ i < env.I ∧ k' = k) := by
      rintro ⟨rfl, hj, hi, rfl⟩
      rcases h with h | h | h | h
      · exact h m (List.mem_cons_self _ _) rfl
      · omega
      · omega
      · exact h rfl
    refine ⟨((ih _ h2).1).trans ?_, ((ih _ h2).2).trans ?_⟩ <;>
      simp [sigStep, updS4, hcond]

theorem upd1_ne (a : ℕ → ℚ) (i : ℕ) (v : ℚ) (j : ℕ) (h : j ≠ i) :
    upd1 a i v j = a j := if_neg h

theorem upd1_eq (a : ℕ → ℚ) (i : ℕ) (v : ℚ) : upd1 a i v i = v := if_pos rfl

theorem updCol_ne (I : ℕ) (a : ℕ → ℕ → ℚ) (c : ℕ) (v : ℕ → ℚ) (i c' : ℕ)
    (h : c' ≠ c) : updCol I a c v i c' = a i c' := by
  simp [updCol, h]

theorem signalLoop_spline {Win : Type} (env : Env Win) (k : ℕ) (w : Win) (res : Res) :
    (signalLoop env k w res).spline = res.spline :=
  (foldl_sigStep_others env k w (List.range env.nsig) res).1

theorem signalLoop_param0 {Win : Type} (env : Env Win) (k : ℕ) (w : Win) (res : Res) :
    (signalLoop env k w res).param0 = res.param0 :=
  (foldl_sigStep_others env k w (List.range env.nsig) res).2.1

theorem signalLoop_param {Win : Type} (env : Env Win) (k : ℕ) (w : Win) (res : Res) :
    (signalLoop env k w res).param = res.param :=
  (foldl_sigStep_others env k w (List.range env.nsig) res).2.2.1

theorem signalLoop_displacement {Win : Type} (env : Env Win) (k : ℕ) (w : Win) (res : Res) :
    (signalLoop env k w res).displacement = res.displacement :=
  (foldl_sigStep_others env k w (List.range env.nsig) res).2.2.2.1

theorem signalLoop_length {Win : Type} (env : Env Win) (k : ℕ) (w : Win) (res : Res) :
    (signalLoop env k w res).length = res.length :=
  (foldl_sigStep_others env k w (List.range env.nsig) res).2.2.2.2.1

theorem signalLoop_area {Win : Type} (env : Env Win) (k : ℕ) (w : Win) (res : Res) :
    (signalLoop env k w res).area = res.area :=
  (foldl_sigStep_others env k w (List.range env.nsig) res).2.2.2.2.2.1

theorem signalLoop_orig {Win : Type} (env : Env Win) (k : ℕ) (w : Win) (res : Res) :
    (signalLoop env k w res).orig = res.orig :=
  (foldl_sigStep_others env k w (List.range env.nsig) res).2.2.2.2.2.2

theorem signalLoop_skip {Win : Type} (env : Env Win) (k : ℕ) (w : Win) (res : Res)
    (m j i k' : ℕ) (h : env.nsig ≤ m ∨ env.J ≤ j ∨ env.I ≤ i ∨ k' ≠ k) :
    (signalLoop env k w res).mean m j i k' = res.mean m j i k' ∧
    (signalLoop env k w res).var m j i k' = res.var m j i k' := by
  apply foldl_sigStep_skip
  rcases h with h | h
  · exact Or.inl fun m' hm' => by
      have := List.mem_range.mp hm'
      omega
  · exact Or.inr h

theorem signalLoop_mean_ne {Win : Type} (env : Env Win) (k : ℕ) (w : Win) (res : Res)
    (m j i k' : ℕ) (h : k' ≠ k) :
    (signalLoop env k w res).mean m j i k' = res.mean m j i k' :=
  (signalLoop_skip env k w res m j i k' (Or.inr (Or.inr (Or.inr h)))).1

theorem signalLoop_var_ne {Win : Type} (env : Env Win) (k : ℕ) (w : Win) (res : Res)
    (m j i k' : ℕ) (h : k' ≠ k) :
    (signalLoop env k w res).var m j i k' = res.var m j i k' :=
  (signalLoop_skip env k w res m j i k' (Or.inr (Or.inr (Or.inr h)))).2

/-- Processing frame `k` leaves every frame slice other than `k` of
`mean`, `var`, `length`, `area`, `orig` untouched, and every displacement
column other than `k-1` (for `k = 0`, every column) untouched. -/
theorem stepFrame_slice_local {Win : Type} (env : Env Win) (k : ℕ) (res : Res)
    (k' m j i c : ℕ) (hk : k' ≠ k) (hc : k = 0 ∨ c ≠ k - 1) :
    (stepFrame env k res).mean m j i k' = res.mean m j i k' ∧
    (stepFrame env k res).var m j i k' = res.var m j i k' ∧
    (stepFrame env k res).length k' = res.length k' ∧
    (stepFrame env k res).area k' = res.area k' ∧
    (stepFrame env k res).orig k' = res.orig k' ∧
    (stepFrame env k res).displacement i c = res.displacement i c := by
  by_cases h0 : k = 0
  · subst h0
    refine ⟨signalLoop_mean_ne env 0 _ _ m j i k' hk,
      signalLoop_var_ne env 0 _ _ m j i k' hk,
      (congrFun (signalLoop_length env 0 _ _) k').trans
        (upd1_ne res.length 0 _ k' hk),
      (congrFun (signalLoop_area env 0 _ _) k').trans
        (upd1_ne res.area 0 _ k' hk),
      (congrFun (signalLoop_orig env 0 _ _) k').trans rfl,
      (congrFun (congrFun (signalLoop_displacement env 0 _ _) i) c).trans rfl⟩
  · have hc' : c ≠ k - 1 := by
      rcases hc with h | h
      · exact absurd h h0
      · exact h
    simp only [stepFrame, if_neg h0]
    refine ⟨signalLoop_mean_ne env k _ _ m j i k' hk,
      signalLoop_var_ne env k _ _ m j i k' hk,
      (congrFun (signalLoop_length env k _ _) k').trans
        (upd1_ne res.length k _ k' hk),
      (congrFun (signalLoop_area env k _ _) k').trans
        (upd1_ne res.area k _ k' hk),
      (congrFun (signalLoop_orig env k _ _) k').trans
        (upd1_ne res.orig k _ k' hk),
      (updCol_ne env.I _ (k - 1) _ i c hc').trans
        ((congrFun (congrFun (signalLoop_displacement env k _ _) i) c).trans rfl)⟩

theorem updCol_eq (I : ℕ) (a : ℕ → ℕ → ℚ) (c : ℕ) (v : ℕ → ℚ) (i : ℕ)
    (h : i < I) : updCol I a c v i c = v i := by
  simp [updCol, h]

theorem updCol_row_oob (I : ℕ) (a : ℕ → ℕ → ℚ) (c : ℕ) (v : ℕ → ℚ) (i c' : ℕ)
    (h : I ≤ i) : updCol I a c v i c' = a i c' := by
  have : ¬ (i < I ∧ c' = c) := by omega
  simp [updCol, this]

theorem stepFrame_zero_orig {Win : Type} (env : Env Win) (res : Res) :
    (stepFrame env 0 res).orig = res.orig :=
  (signalLoop_orig env 0 _ _).trans rfl

theorem stepFrame_zero_param0 {Win : Type} (env : Env Win) (res : Res) :
    (stepFrame env 0 res).param0 = res.param0 :=
  (signalLoop_param0 env 0 _ _).trans rfl

theorem stepFrame_zero_param {Win : Type} (env : Env Win) (res : Res) :
    (stepFrame env 0 res).param = res.param :=
  (signalLoop_param env 0 _ _).trans rfl

theorem stepFrame_zero_displacement {Win : Type} (env : Env Win) (res : Res) :
    (stepFrame env 0 res).displacement = res.displacement :=
  (signalLoop_displacement env 0 _ _).trans rfl

/-- At frame `k >= 1`, `res.orig[k] = find_origin(s0, s, res.orig[k-1])`. -/
theorem stepFrame_orig_eq {Win : Type} (env : Env Win) (k : ℕ) (res : Res)
    (h0 : k ≠ 0) :
    (stepFrame env k res).orig k =
      env.findOrigin (env.fitCurve (k - 1)) (env.fitCurve k) (res.orig (k - 1)) := by
  simp only [stepFrame, if_neg h0]
  exact (congrFun (signalLoop_orig env k _ _) k).trans (upd1_eq _ _ _)

theorem stepFrame_length_eq {Win : Type} (env : Env Win) (k : ℕ) (res : Res) :
    (stepFrame env k res).length k = env.computeLen (env.fitCurve k) ∧
    (stepFrame env k res).area k = env.computeArea (env.fitCurve k) := by
  by_cases h0 : k = 0
  · subst h0
    exact ⟨(congrFun (signalLoop_length env 0 _ _) 0).trans
        (upd1_eq res.length 0 (env.computeLen (env.fitCurve 0))),
      (congrFun (signalLoop_area env 0 _ _) 0).trans
        (upd1_eq res.area 0 (env.computeArea (env.fitCurve 0)))⟩
  · simp only [stepFrame, if_neg h0]
    exact ⟨(congrFun (signalLoop_length env k _ _) k).trans
        (upd1_eq res.length k (env.computeLen (env.fitCurve k))),
      (congrFun (signalLoop_area env k _ _) k).trans
        (upd1_eq res.area k (env.computeArea (env.fitCurve k)))⟩

theorem stepFrame_spline {Win : Type} (env : Env Win) (k : ℕ) (res : Res) :
    (stepFrame env k res).spline = res.spline ++ [env.fitCurve k] := by
  by_cases h0 : k = 0
  · subst h0
    exact congrArg (· ++ [env.fitCurve 0]) ((signalLoop_spline env 0 _ _).trans rfl)
  · simp only [stepFrame, if_neg h0]
    exact congrArg (· ++ [env.fitCurve k]) ((signalLoop_spline env k _ _).trans rfl)

/-- At frame `k >= 1`, the start parameters appended to `res.param0` are
`t0 = res.orig[k-1] + 0.5/I + linspace(0, 1, I, endpoint=False)`. -/
theorem stepFrame_param0_eq {Win : Type} (env : Env Win) (k : ℕ) (res : Res)
    (h0 : k ≠ 0) :
    (stepFrame env k res).param0 =
      res.param0 ++ [linPts (res.orig (k - 1)) env.I] := by
  have h1 : k - 1 ≠ k := by omega
  simp only [stepFrame, if_neg h0]
  refine congrArg₂ (· ++ ·) ((signalLoop_param0 env k _ _).trans rfl) ?_
  rw [upd1_ne res.orig k _ (k - 1) h1]

/-- At frame `k >= 1`, the end parameters appended to `res.param` are the
unmodified return value of `map_contours2(s0, s, t0, t)`, where
`t = res.orig[k] + 0.5/I + linspace(0, 1, I, endpoint=False)` and
`res.orig[k] = find_origin(s0, s, res.orig[k-1])`. -/
theorem stepFrame_param_eq {Win : Type} (env : Env Win) (k : ℕ) (res : Res)
    (h0 : k ≠ 0) :
    (stepFrame env k res).param =
      res.param ++ [env.mapContours2 (env.fitCurve (k - 1)) (env.fitCurve k)
        (linPts (res.orig (k - 1)) env.I)
        (linPts (env.findOrigin (env.fitCurve (k - 1)) (env.fitCurve k)
          (res.orig (k - 1))) env.I)] := by
  have h1 : k - 1 ≠ k := by omega
  simp only [stepFrame, if_neg h0]
  refine congrArg₂ (· ++ ·) ((signalLoop_param env k _ _).trans rfl) ?_
  rw [upd1_ne res.orig k _ (k - 1) h1, upd1_eq res.orig k _]

theorem stepFrame_sig_skip {Win : Type} (env : Env Win) (k : ℕ) (res : Res)
    (m j i k' : ℕ) (h : env.nsig ≤ m ∨ env.J ≤ j ∨ env.I ≤ i ∨ k' ≠ k) :
    (stepFrame env k res).mean m j i k' = res.mean m j i k' ∧
    (stepFrame env k res).var m j i k' = res.var m j i k' := by
  by_cases h0 : k = 0
  · subst h0
    exact ⟨((signalLoop_skip env 0 _ _ m j i k' h).1).trans rfl,
      ((signalLoop_skip env 0 _ _ m j i k' h).2).trans rfl⟩
  · simp only [stepFrame, if_neg h0]
    exact ⟨((signalLoop_skip env k _ _ m j i k' h).1).trans rfl,
      ((signalLoop_skip env k _ _ m j i k' h).2).trans rfl⟩

theorem stepFrame_displacement_unchanged {Win : Type} (env : Env Win) (k : ℕ)
    (res : Res) (i c : ℕ) (h : k = 0 ∨ env.I ≤ i ∨ c ≠ k - 1) :
    (stepFrame env k res).displacement i c = res.displacement i c := by
  by_cases h0 : k = 0
  · subst h0
    exact congrFun (congrFun (stepFrame_zero_displacement env res) i) c
  · simp only [stepFrame, if_neg h0]
    have h' : env.I ≤ i ∨ c ≠ k - 1 := by
      rcases h with h | h | h
      · exact absurd h h0
      · exact Or.inl h
      · exact Or.inr h
    rcases h' with hI | hc
    · exact (updCol_row_oob env.I _ (k - 1) _ i c hI).trans
        ((congrFun (congrFun (signalLoop_displacement env k _ _) i) c).trans rfl)
    · exact (updCol_ne env.I _ (k - 1) _ i c hc).trans
        ((congrFun (congrFun (signalLoop_displacement env k _ _) i) c).trans rfl)

/-- At frame `k >= 1`, row `i < I` of displacement column `k-1` receives
the normal-projected displacement computed from `s0 = fitCurve (k-1)`,
`s = fitCurve k`, `t0` from `res.orig[k-1]` and `t` from
`map_contours2` seeded with the fresh `res.orig[k]`. -/
theorem stepFrame_displacement_eq {Win : Type} (env : Env Win) (k : ℕ)
    (res : Res) (i : ℕ) (h0 : k ≠ 0) (hi : i < env.I) :
    (stepFrame env k res).displacement i (k - 1) =
      dispTerm env.normAt (env.fitCurve (k - 1)) (env.fitCurve k)
        (linPts (res.orig (k - 1)) env.I)
        (env.mapContours2 (env.fitCurve (k - 1)) (env.fitCurve k)
          (linPts (res.orig (k - 1)) env.I)
          (linPts (env.findOrigin (env.fitCurve (k - 1)) (env.fitCurve k)
            (res.orig (k - 1))) env.I)) i := by
  have h1 : k - 1 ≠ k := by omega
  simp only [stepFrame, if_neg h0]
  rw [updCol_eq env.I _ (k - 1) _ i hi]
  rw [upd1_ne res.orig k _ (k - 1) h1, upd1_eq res.orig k _]

/-- `res.orig[0]` is never written by any frame. -/
theorem analyzeUpTo_orig_zero {Win : Type} (env : Env Win) :
    ∀ n, (analyzeUpTo env n).orig 0 = 0 := by
  intro n
  induction n with
  | zero => rfl
  | succ n ih =>
    show (stepFrame env n (analyzeUpTo env n)).orig 0 = 0
    by_cases h0 : n = 0
    · subst h0
      rw [congrFun (stepFrame_zero_orig env _) 0]
      exact ih
    · have := (stepFrame_slice_local env n (analyzeUpTo env n) 0 0 0 0 n
        (Ne.symm h0) (by omega)).2.2.2.2.1
      rw [this]
      exact ih

/-- Once frame `k'` has been processed, its slices of every result array
never change again: the state after `n > k'` frames agrees with the state
right after frame `k'` on the `k'` slices (and, for `k' >= 1`, on
displacement column `k' - 1`). -/
theorem analyzeUpTo_stable {Win : Type} (env : Env Win) (k' m j i : ℕ) :
    ∀ n, k' < n →
      (analyzeUpTo env n).mean m j i k' = (analyzeUpTo env (k' + 1)).mean m j i k' ∧
      (analyzeUpTo env n).var m j i k' = (analyzeUpTo env (k' + 1)).var m j i k' ∧
      (analyzeUpTo env n).length k' = (analyzeUpTo env (k' + 1)).length k' ∧
      (analyzeUpTo env n).area k' = (analyzeUpTo env (k' + 1)).area k' ∧
      (analyzeUpTo env n).orig k' = (analyzeUpTo env (k' + 1)).orig k' ∧
      (1 ≤ k' → (analyzeUpTo env n).displacement i (k' - 1) =
        (analyzeUpTo env (k' + 1)).displacement i (k' - 1)) := by
  intro n
  induction n with
  | zero => omega
  | succ n ih =>
    intro h
    by_cases he : k' + 1 = n + 1
    · rw [he]
      exact ⟨rfl, rfl, rfl, rfl, rfl, fun _ => rfl⟩
    · have hlt : k' < n := by omega
      have ihn := ih hlt
      have hkn : k' ≠ n := by omega
      have hsl := stepFrame_slice_local env n (analyzeUpTo env n) k' m j i n hkn
        (by omega)
      refine ⟨hsl.1.trans ihn.1, hsl.2.1.trans ihn.2.1,
        hsl.2.2.1.trans ihn.2.2.1, hsl.2.2.2.1.trans ihn.2.2.2.1,
        hsl.2.2.2.2.1.trans ihn.2.2.2.2.1, fun h1 => ?_⟩
      have hd := stepFrame_displacement_unchanged env n (analyzeUpTo env n) i
        (k' - 1) (by omega)
      exact hd.trans (ihn.2.2.2.2.2 h1)

/-- Shape invariant: after `n` frames the lists have their expected
lengths and the numeric arrays are zero outside the region written so
far. -/
theorem analyzeUpTo_shape {Win : Type} (env : Env Win) :
    ∀ n, (analyzeUpTo env n).spline.length = n ∧
      (analyzeUpTo env n).param0.length = n - 1 ∧
      (analyzeUpTo env n).param.length = n - 1 ∧
      (∀ i c, env.I ≤ i ∨ n - 1 ≤ c → (analyzeUpTo env n).displacement i c = 0) ∧
      (∀ m j i k', env.nsig ≤ m ∨ env.J ≤ j ∨ env.I ≤ i ∨ n ≤ k' →
        (analyzeUpTo env n).mean m j i k' = 0 ∧
        (analyzeUpTo env n).var m j i k' = 0) ∧
      (∀ k', n ≤ k' → (analyzeUpTo env n).length k' = 0 ∧
        (analyzeUpTo env n).area k' = 0 ∧ (analyzeUpTo env n).orig k' = 0) := by
  intro n
  induction n with
  | zero =>
    exact ⟨rfl, rfl, rfl, fun _ _ _ => rfl, fun _ _ _ _ _ => ⟨rfl, rfl⟩,
      fun _ _ => ⟨rfl, rfl, rfl⟩⟩
  | succ n ih =>
    obtain ⟨ihs, ihp0, ihp, ihd, ihmv, ihsc⟩ := ih
    refine ⟨?_, ?_, ?_, ?_, ?_, ?_⟩
    · show (stepFrame env n (analyzeUpTo env n)).spline.length = n + 1
      rw [stepFrame_spline]
      simp [ihs]
    · show (stepFrame env n (analyzeUpTo env n)).param0.length = (n + 1) - 1
      by_cases h0 : n = 0
      · subst h0
        rw [stepFrame_zero_param0]
        simpa using ihp0
      · rw [stepFrame_param0_eq env n _ h0]
        simp [ihp0]
        omega
    · show (stepFrame env n (analyzeUpTo env n)).param.length = (n + 1) - 1
      by_cases h0 : n = 0
      · subst h0
        rw [stepFrame_zero_param]
        simpa using ihp
      · rw [stepFrame_param_eq env n _ h0]
        simp [ihp]
        omega
    · intro i c hc
      show (stepFrame env n (analyzeUpTo env n)).displacement i c = 0
      rcases hc with hI | hcb
      · rw [stepFrame_displacement_unchanged env n _ i c (Or.inr (Or.inl hI))]
        exact ihd i c (Or.inl hI)
      · by_cases h0 : n = 0
        · subst h0
          rw [stepFrame_displacement_unchanged env 0 _ i c (Or.inl rfl)]
          exact ihd i c (Or.inr (by omega))
        · rw [stepFrame_displacement_unchanged env n _ i c (by omega)]
          exact ihd i c (Or.inr (by omega))
    · intro m j i k' hc
      show (stepFrame env n (analyzeUpTo env n)).mean m j i k' = 0 ∧
        (stepFrame env n (analyzeUpTo env n)).var m j i k' = 0
      have hskip : env.nsig ≤ m ∨ env.J ≤ j ∨ env.I ≤ i ∨ k' ≠ n := by
        rcases hc with h | h | h | h
        · exact Or.inl h
        · exact Or.inr (Or.inl h)
        · exact Or.inr (Or.inr (Or.inl h))
        · exact Or.inr (Or.inr (Or.inr (by omega)))
      have hih : env.nsig ≤ m ∨ env.J ≤ j ∨ env.I ≤ i ∨ n ≤ k' := by
        rcases hc with h | h | h | h
        · exact Or.inl h
        · exact Or.inr (Or.inl h)
        · exact Or.inr (Or.inr (Or.inl h))
        · exact Or.inr (Or.inr (Or.inr (by omega)))
      have hs := stepFrame_sig_skip env n (analyzeUpTo env n) m j i k' hskip
      exact ⟨hs.1.trans (ihmv m j i k' hih).1, hs.2.trans (ihmv m j i k' hih).2⟩
    · intro k' hk'
      show (stepFrame env n (analyzeUpTo env n)).length k' = 0 ∧
        (stepFrame env n (analyzeUpTo env n)).area k' = 0 ∧
        (stepFrame env n (analyzeUpTo env n)).orig k' = 0
      have hsl := stepFrame_slice_local env n (analyzeUpTo env n) k' 0 0 0 n
        (by omega) (by omega)
      exact ⟨hsl.2.2.1.trans (ihsc k' (by omega)).1,
        hsl.2.2.2.1.trans (ihsc k' (by omega)).2.1,
        hsl.2.2.2.2.1.trans (ihsc k' (by omega)).2.2⟩

/-- The recurrence satisfied by the accumulated origin: for `1 <= k < n`,
`orig[k] = find_origin(s[k-1], s[k], orig[k-1])` in the final state. -/
theorem analyzeUpTo_orig_rec {Win : Type} (env : Env Win) (k n : ℕ)
    (h1 : 1 ≤ k) (h2 : k < n) :
    (analyzeUpTo env n).orig k =
      env.findOrigin (env.fitCurve (k - 1)) (env.fitCurve k)
        ((analyzeUpTo env n).orig (k - 1)) := by
  have hst := (analyzeUpTo_stable env k 0 0 0 n h2).2.2.2.2.1
  have hw : (analyzeUpTo env (k + 1)).orig k =
      env.findOrigin (env.fitCurve (k - 1)) (env.fitCurve k)
        ((analyzeUpTo env k).orig (k - 1)) :=
    stepFrame_orig_eq env k (analyzeUpTo env k) (by omega)
  have hprev : (analyzeUpTo env n).orig (k - 1) = (analyzeUpTo env k).orig (k - 1) := by
    have hs1 := (analyzeUpTo_stable env (k - 1) 0 0 0 n (by omega)).2.2.2.2.1
    have hs2 := (analyzeUpTo_stable env (k - 1) 0 0 0 k (by omega)).2.2.2.2.1
    rw [hs1, ← hs2]
  rw [hst, hw, hprev]

/-- Modelled from the spec: cyclic monotonic order of a triple of
parameter values (spec invariant (ii): "ParameterSet end-values ... must
preserve cyclic monotonic order matching the start-values' order").
A triple is in ascending cyclic order if some rotation of it is
ascending.  Used only to exhibit a crossing solver output. -/
def ord3 (a b c : ℚ) : Prop :=
  (a < b ∧ b < c) ∨ (b < c ∧ c < a) ∨ (c < a ∧ a < b)

instance ord3Decidable (a b c : ℚ) : Decidable (ord3 a b c) :=
  inferInstanceAs (Decidable ((a < b ∧ b < c) ∨ (b < c ∧ c < a) ∨ (c < a ∧ a < b)))

/-- For `1 <= k < n`, the ParameterSets stored for transition `k-1` are
exactly the `t0` built from `orig[k-1]` and the raw return value of
`map_contours2`. -/
theorem analyzeUpTo_params_getD {Win : Type} (env : Env Win) (k : ℕ) (h1 : 1 ≤ k) :
    ∀ n, k < n →
      (analyzeUpTo env n).param0.getD (k - 1) [] =
        linPts ((analyzeUpTo env k).orig (k - 1)) env.I ∧
      (analyzeUpTo env n).param.getD (k - 1) [] =
        env.mapContours2 (env.fitCurve (k - 1)) (env.fitCurve k)
          (linPts ((analyzeUpTo env k).orig (k - 1)) env.I)
          (linPts (env.findOrigin (env.fitCurve (k - 1)) (env.fitCurve k)
            ((analyzeUpTo env k).orig (k - 1))) env.I) := by
  intro n
  induction n with
  | zero => omega
  | succ n ih =>
    intro h
    by_cases he : k = n
    · subst he
      have hlen0 : (analyzeUpTo env k).param0.length = k - 1 :=
        (analyzeUpTo_shape env k).2.1
      have hlen : (analyzeUpTo env k).param.length = k - 1 :=
        (analyzeUpTo_shape env k).2.2.1
      constructor
      · show (stepFrame env k (analyzeUpTo env k)).param0.getD (k - 1) [] = _
        rw [stepFrame_param0_eq env k _ (by omega),
          List.getD_append_right _ _ _ _ (by omega), hlen0, Nat.sub_self]
        rfl
      · show (stepFrame env k (analyzeUpTo env k)).param.getD (k - 1) [] = _
        rw [stepFrame_param_eq env k _ (by omega),
          List.getD_append_right _ _ _ _ (by omega), hlen, Nat.sub_self]
        rfl
    · have hkn : k < n := by omega
      have hlen0 : (analyzeUpTo env n).param0.length = n - 1 :=
        (analyzeUpTo_shape env n).2.1
      have hlen : (analyzeUpTo env n).param.length = n - 1 :=
        (analyzeUpTo_shape env n).2.2.1
      have hn0 : n ≠ 0 := by omega
      constructor
      · show (stepFrame env n (analyzeUpTo env n)).param0.getD (k - 1) [] = _
        rw [stepFrame_param0_eq env n _ hn0,
          List.getD_append _ _ _ _ (by omega)]
        exact (ih hkn).1
      · show (stepFrame env n (analyzeUpTo env n)).param.getD (k - 1) [] = _
        rw [stepFrame_param_eq env n _ hn0,
          List.getD_append _ _ _ _ (by omega)]
        exact (ih hkn).2

/-- C5: for every run of `analyze_morphodynamics`, regardless of the
contour content of any frame (i.e. for every environment of collaborator
functions), the accumulated origin for frame 0 is 0: origin values are
only written for frames `k >= 1`. -/
theorem C5_origin_frame_zero {Win : Type} (env : Env Win) :
    (analyze env).orig 0 = 0 :=
  analyzeUpTo_orig_zero env env.K

/-- C6: for every frame `1 <= k < K`, the final `res.orig[k]` satisfies
`orig[k] = find_origin(s_(k-1), s_k, orig[k-1])` — it is computed from
the previous frame's curve, the current frame's curve and the previous
origin only — and once frame `k` is processed, `res.orig[k]` is never
modified by any later frame (`n > k`). -/
theorem C6_origin_single_assignment {Win : Type} (env : Env Win) (k n : ℕ)
    (h1 : 1 ≤ k) (h2 : k < env.K) (h3 : k < n) :
    (analyze env).orig k =
      env.findOrigin (env.fitCurve (k - 1)) (env.fitCurve k)
        ((analyze env).orig (k - 1)) ∧
    (analyzeUpTo env n).orig k = (analyzeUpTo env (k + 1)).orig k :=
  ⟨analyzeUpTo_orig_rec env k env.K h1 h2,
    (analyzeUpTo_stable env k 0 0 0 n h3).2.2.2.2.1⟩

/-- C7: the result record of a run over `K` frames has `K` splines,
`K-1` start and end ParameterSets, an `I`-by-`(K-1)` displacement array,
`C`-by-`J`-by-`I`-by-`K` mean and variance arrays and `K`-length length,
area and origin arrays (numpy allocations are modelled as total functions
that are zero outside the allocated/written region). -/
theorem C7_result_shapes {Win : Type} (env : Env Win) :
    (analyze env).spline.length = env.K ∧
    (analyze env).param0.length = env.K - 1 ∧
    (analyze env).param.length = env.K - 1 ∧
    (∀ i c, env.I ≤ i ∨ env.K - 1 ≤ c → (analyze env).displacement i c = 0) ∧
    (∀ m j i k', env.nsig ≤ m ∨ env.J ≤ j ∨ env.I ≤ i ∨ env.K ≤ k' →
      (analyze env).mean m j i k' = 0 ∧ (analyze env).var m j i k' = 0) ∧
    (∀ k', env.K ≤ k' → (analyze env).length k' = 0 ∧
      (analyze env).area k' = 0 ∧ (analyze env).orig k' = 0) :=
  analyzeUpTo_shape env env.K

/-- C8: the result arrays are append-only across frames: processing frame
`k` writes only the frame-`k` slices of `mean`, `var`, `length`, `area`,
`orig` and (for `k >= 1`) column `k-1` of `displacement` (first six
conjuncts, for an arbitrary incoming state); consequently the slices
written while processing frame `k'` are left unchanged by all later
frames `n > k'` (remaining conjuncts). -/
theorem C8_frame_writes_append_only {Win : Type} (env : Env Win) (k : ℕ)
    (res : Res) (k' m j i c n : ℕ) (hk : k' ≠ k) (hc : k = 0 ∨ c ≠ k - 1)
    (hn : k' < n) :
    (stepFrame env k res).mean m j i k' = res.mean m j i k' ∧
    (stepFrame env k res).var m j i k' = res.var m j i k' ∧
    (stepFrame env k res).length k' = res.length k' ∧
    (stepFrame env k res).area k' = res.area k' ∧
    (stepFrame env k res).orig k' = res.orig k' ∧
    (stepFrame env k res).displacement i c = res.displacement i c ∧
    (analyzeUpTo env n).mean m j i k' = (analyzeUpTo env (k' + 1)).mean m j i k' ∧
    (analyzeUpTo env n).var m j i k' = (analyzeUpTo env (k' + 1)).var m j i k' ∧
    (analyzeUpTo env n).length k' = (analyzeUpTo env (k' + 1)).length k' ∧
    (analyzeUpTo env n).area k' = (analyzeUpTo env (k' + 1)).area k' ∧
    (analyzeUpTo env n).orig k' = (analyzeUpTo env (k' + 1)).orig k' ∧
    (1 ≤ k' → (analyzeUpTo env n).displacement i (k' - 1) =
      (analyzeUpTo env (k' + 1)).displacement i (k' - 1)) := by
  obtain ⟨a1, a2, a3, a4, a5, a6⟩ := stepFrame_slice_local env k res k' m j i c hk hc
  obtain ⟨b1, b2, b3, b4, b5, b6⟩ := analyzeUpTo_stable env k' m j i n hn
  exact ⟨a1, a2, a3, a4, a5, a6, b1, b2, b3, b4, b5, b6⟩

/-- C3 as amended: the orchestrator performs no ordering validation and
has no error path: for every environment — in particular one whose
correspondence solve returns an end ParameterSet violating the start
set's cyclic order — the value stored in `res.param[k-1]` is the raw,
unchecked return value of `map_contours2(s0, s, t0, t)`. -/
theorem C3_accepts_any_solver_output {Win : Type} (env : Env Win) (k : ℕ)
    (h1 : 1 ≤ k) (h2 : k < env.K) :
    (analyze env).param.getD (k - 1) [] =
      env.mapContours2 (env.fitCurve (k - 1)) (env.fitCurve k)
        (linPts ((analyze env).orig (k - 1)) env.I)
        (linPts ((analyze env).orig k) env.I) := by
  have hp := (analyzeUpTo_params_getD env k h1 env.K h2).2
  have hk : (analyze env).orig k =
      env.findOrigin (env.fitCurve (k - 1)) (env.fitCurve k)
        ((analyze env).orig (k - 1)) :=
    analyzeUpTo_orig_rec env k env.K h1 h2
  have horig : (analyzeUpTo env env.K).orig (k - 1) =
      (analyzeUpTo env k).orig (k - 1) := by
    have hs1 := (analyzeUpTo_stable env (k - 1) 0 0 0 env.K (by omega)).2.2.2.2.1
    have hs2 := (analyzeUpTo_stable env (k - 1) 0 0 0 k (by omega)).2.2.2.2.1
    exact hs1.trans hs2.symm
  show (analyzeUpTo env env.K).param.getD (k - 1) [] = _
  rw [hp]
  show _ = env.mapContours2 (env.fitCurve (k - 1)) (env.fitCurve k)
    (linPts ((analyzeUpTo env env.K).orig (k - 1)) env.I)
    (linPts ((analyzeUpTo env env.K).orig k) env.I)
  rw [show (analyzeUpTo env env.K).orig k =
      env.findOrigin (env.fitCurve (k - 1)) (env.fitCurve k)
        ((analyzeUpTo env env.K).orig (k - 1)) from hk]
  rw [horig]

/-- C4: the displacement stored in `displacement[i, k-1]` is the scalar
product of the coordinate difference `S(t[i]) - S0(t0[i])` (with `t0`,
`t` the stored ParameterSets of transition `k-1`) with the 90-degree
rotation `(u_y, -u_x)` of the tangent `u` of `S0` at `t0[i]`, divided by
the norm of `u`. -/
theorem C4_displacement_normal_projection {Win : Type} (env : Env Win)
    (k i : ℕ) (h1 : 1 ≤ k) (h2 : k < env.K) (hi : i < env.I) :
    (analyze env).displacement i (k - 1) =
      ((((env.fitCurve k).ev (mod1 (((analyze env).param.getD (k - 1) []).getD i 0))).1 -
          ((env.fitCurve (k - 1)).ev (mod1 (((analyze env).param0.getD (k - 1) []).getD i 0))).1) *
          ((env.fitCurve (k - 1)).der (mod1 (((analyze env).param0.getD (k - 1) []).getD i 0))).2 +
        (((env.fitCurve k).ev (mod1 (((analyze env).param.getD (k - 1) []).getD i 0))).2 -
          ((env.fitCurve (k - 1)).ev (mod1 (((analyze env).param0.getD (k - 1) []).getD i 0))).2) *
          (-((env.fitCurve (k - 1)).der (mod1 (((analyze env).param0.getD (k - 1) []).getD i 0))).1)) /
        env.normAt ((env.fitCurve (k - 1)).der
          (mod1 (((analyze env).param0.getD (k - 1) []).getD i 0))) := by
  have hp := analyzeUpTo_params_getD env k h1 env.K h2
  show (analyzeUpTo env env.K).displacement i (k - 1) = _
  rw [show (analyze env) = analyzeUpTo env env.K from rfl, hp.1, hp.2]
  have hst := (analyzeUpTo_stable env k 0 0 i env.K h2).2.2.2.2.2 h1
  rw [hst]
  show (stepFrame env k (analyzeUpTo env k)).displacement i (k - 1) = _
  rw [stepFrame_displacement_eq env k _ i (by omega) hi]
  simp only [dispTerm]
  ring

/-- A concrete curve with integral coordinates, used in test runs. -/
def curveT : Curve := ⟨fun t => (t, t + 1), fun _ => (1, 2)⟩

/-- A concrete 3-frame run with 2 angular bins, 1 radial layer and one
signal channel; the collaborators are simple total functions. -/
def envT : Env Unit :=
  ⟨3, 2, 1, 1, fun _ => curveT, fun _ => 5, fun _ => 7, fun _ _ q => q + 1,
    fun _ _ _ t => t, fun _ _ => (), fun _ _ _ _ _ => (1, 2), fun _ => 3⟩

/-- A concrete 2-frame run with 3 angular bins whose correspondence solve
returns the crossing ParameterSet `[1/2, 1/6, 5/6]` (a transposition of
the cyclically ordered start set `[1/6, 1/2, 5/6]`) and whose origin
estimate is 0. -/
def envX : Env Unit :=
  ⟨2, 3, 1, 1, fun _ => curveT, fun _ => 5, fun _ => 7, fun _ _ _ => 0,
    fun _ _ _ _ => [mkRat 1 2, mkRat 1 6, mkRat 5 6], fun _ _ => (),
    fun _ _ _ _ _ => (1, 2), fun _ => 3⟩

/-- Counterexample for C3: at `envX` the solve returns an end
ParameterSet that is not in the start set's cyclic order, yet
`analyze_morphodynamics` silently stores it in `res.param` and completes
all `K` frames — no `CorrespondenceError` (no error path of any kind)
exists in the orchestrator. -/
theorem C3_counterexample_silent_acceptance :
    ord3 (((analyze envX).param0.getD 0 []).getD 0 0)
      (((analyze envX).param0.getD 0 []).getD 1 0)
      (((analyze envX).param0.getD 0 []).getD 2 0) ∧
    ¬ ord3 (((analyze envX).param.getD 0 []).getD 0 0)
      (((analyze envX).param.getD 0 []).getD 1 0)
      (((analyze envX).param.getD 0 []).getD 2 0) ∧
    (analyze envX).param.getD 0 [] = [mkRat 1 2, mkRat 1 6, mkRat 5 6] ∧
    (analyze envX).spline.length = envX.K := by
  have hp0 : (analyze envX).param0.getD 0 [] = linPts 0 3 := by
    have h := (analyzeUpTo_params_getD envX 1 (by decide) envX.K (by decide)).1
    have hz := analyzeUpTo_orig_zero envX 1
    show (analyzeUpTo envX envX.K).param0.getD (1 - 1) [] = linPts 0 3
    rw [h, hz]
    rfl
  have hl : linPts 0 3 = [1/6, 1/2, 5/6] := by
    norm_num [linPts, List.range_succ]
  refine ⟨?_, by decide, by decide, by decide⟩
  rw [hp0, hl]
  norm_num [ord3]

/-- Witness for C3 as amended, at `envT`, transition `k = 1`. -/
theorem C3_accepts_any_solver_output_witness :
    (1 ≤ 1 ∧ 1 < envT.K) ∧
    (analyze envT).param.getD (1 - 1) [] =
      envT.mapContours2 (envT.fitCurve (1 - 1)) (envT.fitCurve 1)
        (linPts ((analyze envT).orig (1 - 1)) envT.I)
        (linPts ((analyze envT).orig 1) envT.I) :=
  ⟨⟨by decide, by decide⟩,
    C3_accepts_any_solver_output envT 1 (by decide) (by decide)⟩

/-- Witness for C4 at `envT`, frame `k = 1`, angular bin `i = 0`. -/
theorem C4_displacement_normal_projection_witness :
    (1 ≤ 1 ∧ 1 < envT.K ∧ 0 < envT.I) ∧
    (analyze envT).displacement 0 (1 - 1) =
      ((((envT.fitCurve 1).ev (mod1 (((analyze envT).param.getD (1 - 1) []).getD 0 0))).1 -
          ((envT.fitCurve (1 - 1)).ev (mod1 (((analyze envT).param0.getD (1 - 1) []).getD 0 0))).1) *
          ((envT.fitCurve (1 - 1)).der (mod1 (((analyze envT).param0.getD (1 - 1) []).getD 0 0))).2 +
        (((envT.fitCurve 1).ev (mod1 (((analyze envT).param.getD (1 - 1) []).getD 0 0))).2 -
          ((envT.fitCurve (1 - 1)).ev (mod1 (((analyze envT).param0.getD (1 - 1) []).getD 0 0))).2) *
          (-((envT.fitCurve (1 - 1)).der (mod1 (((analyze envT).param0.getD (1 - 1) []).getD 0 0))).1)) /
        envT.normAt ((envT.fitCurve (1 - 1)).der
          (mod1 (((analyze envT).param0.getD (1 - 1) []).getD 0 0))) :=
  ⟨⟨by decide, by decide, by decide⟩,
    C4_displacement_normal_projection envT 1 0 (by decide) (by decide) (by decide)⟩

/-- Witness for C6 at `envT`, frame `k = 1`, later state `n = 2`. -/
theorem C6_origin_single_assignment_witness :
    (1 ≤ 1 ∧ 1 < envT.K ∧ 1 < 2) ∧
    ((analyze envT).orig 1 =
      envT.findOrigin (envT.fitCurve (1 - 1)) (envT.fitCurve 1)
        ((analyze envT).orig (1 - 1)) ∧
    (analyzeUpTo envT 2).orig 1 = (analyzeUpTo envT (1 + 1)).orig 1) :=
  ⟨⟨by decide, by decide, by decide⟩,
    C6_origin_single_assignment envT 1 2 (by decide) (by decide) (by decide)⟩

/-- Witness for C7 at `envT` (whose inner bound hypotheses are
instantiated at the out-of-range row index `i = 5`). -/
theorem C7_result_shapes_witness :
    (envT.I ≤ 5 ∨ envT.K - 1 ≤ 0) ∧
    (analyze envT).displacement 5 0 = 0 ∧
    (analyze envT).spline.length = envT.K :=
  ⟨Or.inl (by decide),
    (C7_result_shapes envT).2.2.2.1 5 0 (Or.inl (by decide)),
    (C7_result_shapes envT).1⟩

/-- Witness for C8 at `envT`: frame `k = 1` does not change the frame-0
slices of the incoming state, and after `n = 2` frames the frame-0 slices
agree with the state right after frame 0. -/
theorem C8_frame_writes_append_only_witness :
    (0 ≠ 1 ∧ (1 = 0 ∨ 1 ≠ 1 - 1) ∧ 0 < 2) ∧
    (stepFrame envT 1 initRes).mean 0 0 0 0 = initRes.mean 0 0 0 0 ∧
    (analyzeUpTo envT 2).orig 0 = (analyzeUpTo envT (0 + 1)).orig 0 :=
  ⟨⟨by decide, by decide, by decide⟩,
    (C8_frame_writes_append_only envT 1 initRes 0 0 0 0 1 2 (by decide)
      (by decide) (by decide)).1,
    (C8_frame_writes_append_only envT 1 initRes 0 0 0 0 1 2 (by decide)
      (by decide) (by decide)).2.2.2.2.2.2.2.2.2.2.1⟩
